import Mathlib

set_option maxRecDepth 8000

/-!
Verification of the Android readout module (`src/android/mod.rs`).

The module's accessors are embedded shallowly: every external effect
(syscall result, file content, subprocess output, environment variable,
directory listing, property-store value) becomes an explicit input, and the
module's pure computation on those inputs is translated function by
function.  Rust `u64` arithmetic is modelled on `Nat` with explicit
`% 2 ^ 64` where overflow matters; a Rust function that can `panic!` via
`unwrap`/`expect` returns a `RunOutcome` whose `panics` constructor marks
the panic.  Strings are modelled as `List Char` (`String.data`), with Rust
`str::len` modelled as the UTF-8 byte length `utf8Len`.
-/

/-- Error type as used by the module.  Inside `src/android/mod.rs` only the
catch-all, message-carrying constructor (`ReadoutError::Other`) is ever
built; the enum itself is declared outside `src/`. -/
inductive ReadoutError : Type where
  | Other : List Char → ReadoutError
  deriving DecidableEq

/-- Outcome of running a Rust function that may panic (via `unwrap` or
`expect`): either a returned value or a panic. -/
inductive RunOutcome (α : Type) : Type where
  | ok : α → RunOutcome α
  | panics : RunOutcome α
  deriving DecidableEq

/-- Modulus of Rust `u64` arithmetic. -/
def U64MOD : Nat := 2 ^ 64

/-- Wrapping `u64` subtraction `a - b` (release-mode Rust semantics) for
`a, b < 2 ^ 64`. -/
def wsub64 (a b : Nat) : Nat := (a + U64MOD - b) % U64MOD

/-- Message built for a failed `sysinfo` call. -/
def sysinfoFailMsg : List Char := "Failed to get system statistics".data

/-- Message built by `cpu_usage` when the computed usage is zero. -/
def usageNullMsg : List Char := "Processor usage is null.".data

/-- AndroidMemoryReadout::used.  The five sub-accessor results are inputs;
the code calls `.unwrap()` on each in order total, free, cached,
reclaimable, buffers - panicking on the first error - and then returns
`Ok(total - free - cached - reclaimable - buffers)` in `u64` arithmetic. -/
def used (rt rf rc rr rb : Except ReadoutError Nat) :
    RunOutcome (Except ReadoutError Nat) :=
  match rt with
  | .error _ => .panics
  | .ok t =>
    match rf with
    | .error _ => .panics
    | .ok f =>
      match rc with
      | .error _ => .panics
      | .ok c =>
        match rr with
        | .error _ => .panics
        | .ok r =>
          match rb with
          | .error _ => .panics
          | .ok b => .ok (.ok (wsub64 (wsub64 (wsub64 (wsub64 t f) c) r) b))

/-- AndroidGeneralReadout::cpu_usage.  `retOk` is whether the `sysinfo`
syscall succeeded (`ret != -1`); `rounded` abstracts the floating-point
pipeline `round(loads[0] / 2^SI_LOAD_SHIFT / num_cpus * 100)` as its
rounded integer result (the `f64` steps themselves are not modelled).  The
code returns `Ok(rounded)` unless the rounded value is zero, which is
reported as an error. -/
def cpu_usage (retOk : Bool) (rounded : Nat) : Except ReadoutError Nat :=
  if retOk then
    if rounded ≠ 0 then .ok rounded
    else .error (.Other usageNullMsg)
  else .error (.Other sysinfoFailMsg)

/-- Fields of `libc::utsname` that the module reads. -/
structure Utsname : Type where
  sysname : List Char
  release : List Char
  deriving DecidableEq

/-- AndroidKernelReadout: stores the result of the single `uname` call made
at construction (`none` when the syscall returned -1). -/
structure KernelState : Type where
  uts : Option Utsname
  deriving DecidableEq

/-- AndroidKernelReadout::new - the `uname` result is the input. -/
def kernelNew (r : Option Utsname) : KernelState := ⟨r⟩

/-- AndroidKernelReadout::os_release - reads only the stored snapshot. -/
def os_release (k : KernelState) : Except ReadoutError (List Char) :=
  match k.uts with
  | some u => .ok u.release
  | none => .error (.Other "Failed to get os_release".data)

/-- AndroidKernelReadout::os_type - reads only the stored snapshot. -/
def os_type (k : KernelState) : Except ReadoutError (List Char) :=
  match k.uts with
  | some u => .ok u.sysname
  | none => .error (.Other "Failed to get os_type".data)

/-- Whitespace test matching `char::is_whitespace` on the characters that
occur in this module's data (space, tab, newline, carriage return). -/
def wsChar (c : Char) : Bool :=
  c == ' ' || c == '\t' || c == '\n' || c == '\r'

/-- Number of bytes of the UTF-8 encoding of one character. -/
def charUtf8Size (c : Char) : Nat :=
  if c.toNat < 0x80 then 1
  else if c.toNat < 0x800 then 2
  else if c.toNat < 0x10000 then 3
  else 4

/-- Rust `str::len`: the UTF-8 byte length. -/
def utf8Len (s : List Char) : Nat := (s.map charUtf8Size).sum

/-- Rust `str::trim`: drop whitespace from both ends. -/
def trimL (s : List Char) : List Char :=
  ((s.dropWhile wsChar).reverse.dropWhile wsChar).reverse

/-- Rust `str::starts_with` on character lists. -/
def isPfxOf : List Char → List Char → Bool
  | [], _ => true
  | _ :: _, [] => false
  | a :: as, b :: bs => a == b && isPfxOf as bs

/-- Helper for `removeAll`: fuel-indexed scan replacing every occurrence of
the pattern by nothing, left to right, non-overlapping. -/
def removeAllGo (pat : List Char) : Nat → List Char → List Char
  | _, [] => []
  | 0, s => s
  | fuel + 1, c :: rest =>
    if isPfxOf pat (c :: rest) = true ∧ pat ≠ [] then
      removeAllGo pat fuel (List.drop pat.length (c :: rest))
    else
      c :: removeAllGo pat fuel rest

/-- Rust `str::replace(pat, "")`: delete all occurrences of `pat`. -/
def removeAll (pat s : List Char) : List Char := removeAllGo pat s.length s

/-- Helper for `splitWs`: accumulate the current token (reversed). -/
def splitWsAux : List Char → List Char → List (List Char)
  | [], acc => if acc = [] then [] else [acc.reverse]
  | c :: rest, acc =>
    if wsChar c then
      if acc = [] then splitWsAux rest []
      else acc.reverse :: splitWsAux rest []
    else splitWsAux rest (c :: acc)

/-- Rust `str::split_whitespace`: whitespace-separated tokens, no empties. -/
def splitWs (s : List Char) : List (List Char) := splitWsAux s []

/-- Helper for `uniqueL`: keep elements not seen before. -/
def uniqueAux {α : Type} [DecidableEq α] : List α → List α → List α
  | [], _ => []
  | x :: rest, seen =>
    if x ∈ seen then uniqueAux rest seen
    else x :: uniqueAux rest (x :: seen)

/-- itertools `unique()`: deduplicate preserving first-occurrence order. -/
def uniqueL {α : Type} [DecidableEq α] (l : List α) : List α := uniqueAux l []

/-- itertools `join(" ")`: join tokens with single spaces. -/
def joinSp : List (List Char) → List Char
  | [] => []
  | [t] => t
  | t :: u :: rest => t ++ ' ' :: joinSp (u :: rest)

/-- The string `format!("{} {} ({})", vendor, family, product)`. -/
def fmtMachine (v f p : List Char) : List Char :=
  v ++ " ".data ++ f ++ " (".data ++ p ++ ")".data

/-- Stated from the spec's words, for comparison with the code: split the
formatted string on whitespace, deduplicate tokens preserving
first-occurrence order, rejoin with single spaces. -/
def specDedupJoin (s : List Char) : List Char := joinSp (uniqueL (splitWs s))

/-- AndroidGeneralReadout::machine, success path: format the three property
values, compute the whitespace-split deduplication eagerly, then return the
deduplicated join when the formatted string is empty or its byte length is
at most 15, and the original formatted string otherwise. -/
def machineFrom (v f p : List Char) : List Char :=
  let product := fmtMachine v f p
  let newProduct := uniqueL (splitWs product)
  if product = [] ∨ utf8Len product ≤ 15 then joinSp newProduct
  else product

/-- AndroidGeneralReadout::machine with the three property-store results as
inputs; each `?` propagates the first failure. -/
def machine (rv rf rp : Except ReadoutError (List Char)) :
    Except ReadoutError (List Char) :=
  match rv with
  | .error e => .error e
  | .ok v =>
    match rf with
    | .error e => .error e
    | .ok f =>
      match rp with
      | .error e => .error e
      | .ok p => .ok (machineFrom v f p)

/-- Key prefix scanned for in `/proc/cpuinfo`. -/
def hwKey : List Char := "Hardware".data

/-- Key prefix scanned for in `/proc/cpuinfo`. -/
def procKey : List Char := "Processor".data

/-- Key prefix scanned for in `/proc/cpuinfo`. -/
def mnKey : List Char := "model name".data

/-- Value extraction in `cpu_model_name`:
`line.replace(key, "").replace(":", "").trim()`. -/
def extractVal (key line : List Char) : List Char :=
  trimL (removeAll [':'] (removeAll key line))

/-- Message built by `cpu_model_name` when no key is found. -/
def notFoundMsg : List Char := "Failed to get processor model name".data

/-- The scanning loop of `cpu_model_name` over the lines of the cpu-info
table, with the mutable locals `model` and `processor` as accumulators.  A
line starting with "Hardware" sets `hardware` and breaks immediately; a
"Processor" line overwrites `processor`; a "model name" line is captured
only when `model` is still unset.  Returns `(hardware, model, processor)`. -/
def scanCpu : List (List Char) → Option (List Char) → Option (List Char) →
    Option (List Char) × Option (List Char) × Option (List Char)
  | [], model, processor => (none, model, processor)
  | line :: rest, model, processor =>
    if isPfxOf hwKey line = true then
      (some (extractVal hwKey line), model, processor)
    else if isPfxOf procKey line = true then
      scanCpu rest model (some (extractVal procKey line))
    else if isPfxOf mnKey line = true ∧ model = none then
      scanCpu rest (some (extractVal mnKey line)) processor
    else
      scanCpu rest model processor

/-- AndroidGeneralReadout::cpu_model_name: the open result of
`/proc/cpuinfo` (as a list of lines) is the input; after the scan the
return precedence is hardware, then model, then processor, else an error. -/
def cpu_model_name (file : Option (List (List Char))) :
    Except ReadoutError (List Char) :=
  match (match file with
         | some lines => scanCpu lines none none
         | none => (none, none, none)) with
  | (some h, _, _) => .ok h
  | (none, some m, _) => .ok m
  | (none, none, some p) => .ok p
  | (none, none, none) => .error (.Other notFoundMsg)

/-- Kinds of Rust `ParseIntError` reachable from `u8::from_str`. -/
inductive IntErrKind : Type where
  | Empty : IntErrKind
  | InvalidDigit : IntErrKind
  | PosOverflow : IntErrKind
  deriving DecidableEq

/-- Rust `Debug` rendering of the `ParseIntError`. -/
def kindRepr : IntErrKind → List Char
  | .Empty => "ParseIntError \x7b kind: Empty \x7d".data
  | .InvalidDigit => "ParseIntError \x7b kind: InvalidDigit \x7d".data
  | .PosOverflow => "ParseIntError \x7b kind: PosOverflow \x7d".data

/-- Decimal digit value of a character (`char::to_digit(10)`). -/
def digitVal? (c : Char) : Option Nat :=
  if 48 ≤ c.toNat ∧ c.toNat ≤ 57 then some (c.toNat - 48) else none

/-- Digit loop of `u8::from_str`: checked `acc * 10 + d` staying within
`u8`, failing with `InvalidDigit` on a non-digit and `PosOverflow` past
255. -/
def parseU8Go : Nat → List Char → Except IntErrKind Nat
  | acc, [] => .ok acc
  | acc, c :: rest =>
    match digitVal? c with
    | none => .error .InvalidDigit
    | some d =>
      if 255 < acc * 10 + d then .error .PosOverflow
      else parseU8Go (acc * 10 + d) rest

/-- Rust `u8::from_str`: empty input is `Empty`; a leading `+` is consumed
(a bare `+` is `InvalidDigit`; a `-` is not consumed for unsigned types and
fails in the digit loop); then the checked digit loop runs. -/
def parseU8E (s : List Char) : Except IntErrKind Nat :=
  match s with
  | [] => .error .Empty
  | c :: rest =>
    if c = '+' then
      if rest = [] then .error .InvalidDigit else parseU8Go 0 rest
    else parseU8Go 0 (c :: rest)

/-- Unchecked digit loop, used to say which number a string denotes. -/
def plainValGo : Nat → List Char → Option Nat
  | acc, [] => some acc
  | acc, c :: rest =>
    match digitVal? c with
    | none => none
    | some d => plainValGo (acc * 10 + d) rest

/-- The number a string denotes as an unsigned decimal (optional leading
`+`, then at least one digit), with no size bound - the spec-side notion of
a "numeric" string. -/
def denotesVal (s : List Char) : Option Nat :=
  match s with
  | [] => none
  | c :: rest =>
    if c = '+' then
      if rest = [] then none else plainValGo 0 rest
    else plainValGo 0 (c :: rest)

/-- Little-endian decimal digits of `n`, fuel-indexed. -/
def decDigitsLE : Nat → Nat → List Nat
  | 0, _ => []
  | fuel + 1, n => if n = 0 then [] else n % 10 :: decDigitsLE fuel (n / 10)

/-- Value of a little-endian digit list. -/
def ofDigitsLE : List Nat → Nat
  | [] => 0
  | d :: ds => d + 10 * ofDigitsLE ds

/-- Character of a decimal digit. -/
def digitChar (d : Nat) : Char := Char.ofNat (48 + d)

/-- Canonical decimal representation of `n`: the strings "0", "1", ...,
"100", ... with no sign, no leading zeros and no other characters. -/
def decimalRepr (n : Nat) : List Char :=
  if n = 0 then ['0'] else (decDigitsLE (n + 1) n).reverse.map digitChar

/-- Modelled from the spec: `extra::pop_newline` (its code is not under
`src/`) - "trim trailing newline": remove one trailing newline character
when present. -/
def popNewline (s : List Char) : List Char :=
  match s.getLast? with
  | some c => if c = '\n' then s.dropLast else s
  | none => s

/-- Path read by AndroidBatteryReadout::percentage. -/
def batCapacityPath : List Char :=
  "/sys/class/power_supply/battery/capacity".data

/-- The message `format!("Could not parse the value '{}' of {} into a
digit: {:?}", text, path, err)` built on a parse failure. -/
def parseErrMsg (text : List Char) (k : IntErrKind) : List Char :=
  "Could not parse the value '".data ++ text ++ "' of ".data ++
    batCapacityPath ++ " into a digit: ".data ++ kindRepr k

/-- AndroidBatteryReadout::percentage: the `fs::read_to_string` result is
the input (`?` propagates a read failure); the content has its trailing
newline popped and is parsed as `u8`, a parse failure becoming the
formatted `Other` error. -/
def percentage (readResult : Except ReadoutError (List Char)) :
    Except ReadoutError Nat :=
  match readResult with
  | .error e => .error e
  | .ok content =>
    match parseU8E (popNewline content) with
    | .ok p => .ok p
    | .error k => .error (.Other (parseErrMsg (popNewline content) k))

/-- Package-manager kinds handled by AndroidPackageReadout. -/
inductive PackageManager : Type where
  | Android : PackageManager
  | Dpkg : PackageManager
  | Cargo : PackageManager
  deriving DecidableEq

/-- Environment seen by AndroidPackageReadout::count_pkgs.  `pmOutput` is
the `pm list packages` subprocess result: `none` when spawning failed
(`unwrap` panics), `some none` when stdout is invalid UTF-8 (`expect`
panics), `some (some s)` for valid stdout `s`.  `dpkgOnPath` and
`cargoOnPath` are the `extra::which` results, `pfxVar` the `PREFIX`
environment variable, `dpkgDirEntries` the file names listed in
`$PREFIX/var/lib/dpkg/info`, and `cargoCount` the shared cargo
collaborator's result. -/
structure PkgEnv : Type where
  pmOutput : Option (Option (List Char))
  dpkgOnPath : Bool
  pfxVar : Option (List Char)
  dpkgDirEntries : List (List Char)
  cargoOnPath : Bool
  cargoCount : Option Nat
  deriving DecidableEq

/-- Modelled from the spec: `extra::count_lines` (its code is not under
`src/`) - reduces captured stdout to its line count; blank output yields
`none`, a detection failure that `count_pkgs` silently omits. -/
def countLines (s : List Char) : Option Nat :=
  let t := trimL s
  if t = [] then none
  else some ((t.filter (fun c => c == '\n')).length + 1)

/-- AndroidPackageReadout::count_pm: `unwrap` of the spawn result and
`expect` of UTF-8 decoding both panic; otherwise the line count of stdout. -/
def count_pm (env : PkgEnv) : RunOutcome (Option Nat) :=
  match env.pmOutput with
  | none => .panics
  | some none => .panics
  | some (some out) => .ok (countLines out)

/-- Helper for `pathExtension`: the segment after the last dot. -/
def afterLastDot : List Char → Option (List Char)
  | [] => none
  | c :: rest =>
    match afterLastDot rest with
    | some e => some e
    | none => if c = '.' then some rest else none

/-- Modelled from the spec: `extra::path_extension` (its code is not under
`src/`) - the extension of a directory entry: the segment of its file name
after the last dot, absent when there is no dot past a leading-dot hidden
name. -/
def pathExtension (name : List Char) : Option (List Char) :=
  match name with
  | [] => none
  | c :: rest => if c = '.' then afterLastDot rest else afterLastDot name

/-- AndroidPackageReadout::count_dpkg: `none` when `PREFIX` is unset or the
dpkg info directory has no entries at all; otherwise the count of entries
whose extension is "list". -/
def count_dpkg (env : PkgEnv) : Option Nat :=
  match env.pfxVar with
  | none => none
  | some _ =>
    if env.dpkgDirEntries ≠ [] then
      some ((env.dpkgDirEntries.filter
        (fun x => decide (pathExtension x = some "list".data))).length)
    else none

/-- The native manager's contribution to the package list. -/
def pmEntry : Option Nat → List (PackageManager × Nat)
  | some c => [(PackageManager.Android, c)]
  | none => []

/-- The dpkg contribution: only when `dpkg` is on the path and
`count_dpkg` succeeds. -/
def dpkgEntry (env : PkgEnv) : List (PackageManager × Nat) :=
  if env.dpkgOnPath then
    match count_dpkg env with
    | some c => [(PackageManager.Dpkg, c)]
    | none => []
  else []

/-- The cargo contribution: only when `cargo` is on the path and the shared
collaborator succeeds. -/
def cargoEntry (env : PkgEnv) : List (PackageManager × Nat) :=
  if env.cargoOnPath then
    match env.cargoCount with
    | some c => [(PackageManager.Cargo, c)]
    | none => []
  else []

/-- AndroidPackageReadout::count_pkgs: pushes the pm, dpkg and cargo
entries in that order (each optional); a panic inside `count_pm` is a panic
of the whole call. -/
def count_pkgs (env : PkgEnv) : RunOutcome (List (PackageManager × Nat)) :=
  match count_pm env with
  | .panics => .panics
  | .ok copt => .ok (pmEntry copt ++ dpkgEntry env ++ cargoEntry env)

/-- A 42-line `pm list packages` stdout. -/
def pm42Out : List Char :=
  List.intercalate ['\n'] (List.replicate 42 "pkg:com.a".data)

/-- Environment of the claim's concrete case: 42 lines of native-manager
output, `PREFIX` unset, no cargo executable. -/
def pm42Env : PkgEnv := ⟨some (some pm42Out), true, none, [], false, none⟩

/-- Environment where the pm subprocess yields invalid UTF-8 stdout. -/
def badUtf8Env : PkgEnv := ⟨some none, true, none, [], true, some 3⟩

/-- Environment with `PREFIX` set, dpkg on the path, and an empty dpkg info
directory. -/
def emptyDirEnv : PkgEnv :=
  ⟨some (some "pkg:one".data), true, some "/usr".data, [], false, none⟩

/-- Environment with a non-empty dpkg info directory holding no ".list"
file. -/
def dpkgZeroEnv : PkgEnv :=
  ⟨some (some "pkg:one".data), true, some "/usr".data,
    ["libfoo.md5sums".data], false, none⟩

/-- Environment with a mixed dpkg info directory: two ".list" entries and
one other. -/
def dpkgTwoEnv : PkgEnv :=
  ⟨some (some "pkg:one".data), true, some "/usr".data,
    ["a.list".data, "b.list".data, "c.md5sums".data], false, none⟩

/-- Claim C1 (code_bug record): evaluating `used` at a failing input - the
`total()` sub-accessor fails because `sysinfo` returned -1 - shows the code
panics through `unwrap` instead of returning the sub-call failure as its
own error result. -/
theorem used_panics_on_sub_error :
    used (.error (.Other sysinfoFailMsg)) (.ok 0) (.ok 0) (.ok 0) (.ok 0)
      = .panics := rfl

/-- Subtracting through a residue: for `b ≤ U64MOD` the wrapping
subtraction of `b` from `x % U64MOD` is `(x + U64MOD - b) % U64MOD`. -/
theorem wsub64_mod (x b : Nat) (hb : b ≤ U64MOD) :
    wsub64 (x % U64MOD) b = (x + U64MOD - b) % U64MOD := by
  unfold wsub64
  rw [Nat.add_sub_assoc hb, Nat.add_sub_assoc hb]
  exact Nat.ModEq.add_right (U64MOD - b) (Nat.mod_modEq x U64MOD)

/-- Claim C2: when all five sub-accessors succeed with u64 values `t`, `f`,
`c`, `r`, `b`, `used` returns `Ok` of the chained u64 subtraction
`t - f - c - r - b` - which is `(t + 4 * 2^64 - f - c - r - b) % 2^64` in
wrapping arithmetic, covering the boundary where the subtraction would go
below zero - and, whenever no underflow occurs, that value is exactly
`t - (f + c + r + b)`. -/
theorem used_total_minus (t f c r b : Nat) (ht : t < U64MOD) (hf : f < U64MOD)
    (hc : c < U64MOD) (hr : r < U64MOD) (hb : b < U64MOD) :
    used (.ok t) (.ok f) (.ok c) (.ok r) (.ok b)
        = .ok (.ok ((t + 4 * U64MOD - f - c - r - b) % U64MOD))
      ∧ (f + c + r + b ≤ t →
          used (.ok t) (.ok f) (.ok c) (.ok r) (.ok b)
            = .ok (.ok (t - (f + c + r + b)))) := by
  have h1 : wsub64 t f = (t + U64MOD - f) % U64MOD := rfl
  have h2 : wsub64 (wsub64 t f) c = (t + U64MOD - f + U64MOD - c) % U64MOD := by
    rw [h1, wsub64_mod _ _ (le_of_lt hc)]
  have h3 : wsub64 (wsub64 (wsub64 t f) c) r
      = (t + U64MOD - f + U64MOD - c + U64MOD - r) % U64MOD := by
    rw [h2, wsub64_mod _ _ (le_of_lt hr)]
  have h4 : wsub64 (wsub64 (wsub64 (wsub64 t f) c) r) b
      = (t + U64MOD - f + U64MOD - c + U64MOD - r + U64MOD - b) % U64MOD := by
    rw [h3, wsub64_mod _ _ (le_of_lt hb)]
  have harg : t + U64MOD - f + U64MOD - c + U64MOD - r + U64MOD - b
      = t + 4 * U64MOD - f - c - r - b := by omega
  have hused : used (.ok t) (.ok f) (.ok c) (.ok r) (.ok b)
      = RunOutcome.ok (Except.ok (wsub64 (wsub64 (wsub64 (wsub64 t f) c) r) b)) :=
    rfl
  have hmain : used (.ok t) (.ok f) (.ok c) (.ok r) (.ok b)
      = .ok (.ok ((t + 4 * U64MOD - f - c - r - b) % U64MOD)) := by
    rw [hused, h4, harg]
  refine ⟨hmain, fun hle => ?_⟩
  rw [hmain]
  have hsplit : t + 4 * U64MOD - f - c - r - b
      = (t - (f + c + r + b)) + U64MOD * 4 := by omega
  rw [hsplit, Nat.add_mul_mod_self_left,
    Nat.mod_eq_of_lt (lt_of_le_of_lt (Nat.sub_le t _) ht)]

/-- Concrete instance of `used_total_minus` with `t = 10`, `f = 1`,
`c = 2`, `r = 3`, `b = 4`. -/
theorem used_total_minus_witness :
    used (.ok 10) (.ok 1) (.ok 2) (.ok 3) (.ok 4) = .ok (.ok 0) :=
  (used_total_minus 10 1 2 3 4 (by decide) (by decide) (by decide)
    (by decide) (by decide)).2 (by decide)

/-- Claim C9: when the statistics snapshot succeeds and the computed usage
percentage rounds to exactly 0, `cpu_usage` returns the "usage is null"
error; no call of `cpu_usage` ever returns `Ok(0)`. -/
theorem cpu_usage_zero_is_error :
    cpu_usage true 0 = .error (ReadoutError.Other usageNullMsg)
      ∧ ∀ (retOk : Bool) (r : Nat), cpu_usage retOk r ≠ .ok 0 := by
  refine ⟨rfl, fun retOk r h => ?_⟩
  cases retOk with
  | false => simp [cpu_usage] at h
  | true =>
    rcases Nat.eq_zero_or_pos r with h0 | hp
    · subst h0; simp [cpu_usage] at h
    · have hne : r ≠ 0 := Nat.pos_iff_ne_zero.mp hp
      simp [cpu_usage, hne] at h

/-- Claim C7 (counterexample): when the syscall failed at construction, the
two accessors do fail deterministically, but with two different `Other`
errors, not one same stored failure. -/
theorem kernel_failure_messages_differ :
    os_release (kernelNew none)
        = .error (ReadoutError.Other "Failed to get os_release".data)
      ∧ os_type (kernelNew none)
        = .error (ReadoutError.Other "Failed to get os_type".data)
      ∧ os_release (kernelNew none) ≠ os_type (kernelNew none) := by
  refine ⟨rfl, rfl, ?_⟩
  intro h
  have h2 : ("Failed to get os_release".data : List Char)
      = "Failed to get os_type".data := by
    injection h with h1
    injection h1
  exact absurd h2 (by decide)

/-- Claim C7 (amended): the Kernel readout stores the one `uname` result
taken at construction and both accessors are functions of that stored
snapshot only.  When the syscall failed (`none` stored), each accessor
deterministically returns its own fixed `Other` error on every call; when
it succeeded, `os_release` returns the stored release and `os_type` the
stored sysname. -/
theorem kernel_snapshot_spec (r : Option Utsname) :
    (r = none →
        os_release (kernelNew r)
            = .error (ReadoutError.Other "Failed to get os_release".data)
          ∧ os_type (kernelNew r)
            = .error (ReadoutError.Other "Failed to get os_type".data))
      ∧ (∀ u, r = some u →
          os_release (kernelNew r) = .ok u.release
            ∧ os_type (kernelNew r) = .ok u.sysname) := by
  refine ⟨fun h => ?_, fun u h => ?_⟩
  · subst h; exact ⟨rfl, rfl⟩
  · subst h; exact ⟨rfl, rfl⟩

/-- Concrete instances of `kernel_snapshot_spec` at a failed and at a
successful construction. -/
theorem kernel_snapshot_spec_witness :
    os_release (kernelNew none)
        = .error (ReadoutError.Other "Failed to get os_release".data)
      ∧ os_type (kernelNew (some ⟨"Linux".data, "4.14.0".data⟩))
        = .ok "Linux".data :=
  ⟨((kernel_snapshot_spec none).1 rfl).1,
    ((kernel_snapshot_spec (some ⟨"Linux".data, "4.14.0".data⟩)).2
      ⟨"Linux".data, "4.14.0".data⟩ rfl).2⟩

/-- Claim C3 (counterexample): with vendor, family and product all the
two-character string "éé", the formatted string has character length 10,
at most 15, yet `machine` returns it unmodified instead of applying the
whitespace-split deduplication - the gate is on the UTF-8 byte length (16
here), not the character length. -/
theorem machine_charlen_counterexample :
    ("éé éé (éé)".data).length = 10
      ∧ machineFrom "éé".data "éé".data "éé".data = "éé éé (éé)".data
      ∧ specDedupJoin "éé éé (éé)".data = "éé (éé)".data
      ∧ machineFrom "éé".data "éé".data "éé".data
          ≠ specDedupJoin "éé éé (éé)".data := by
  refine ⟨by decide, by decide, by decide, by decide⟩

/-- Claim C3 (amended): `machine` formats the three property values as
"vendor family (product)" and returns the whitespace-split,
first-occurrence-order deduplicated rejoin exactly when the formatted
string's UTF-8 byte length is at most 15 (the code's extra empty-string
disjunct is subsumed), returning the original non-deduplicated string
otherwise; the assembled string "Acme Zeta (Z1)" has byte length 14, so it
goes through the deduplication branch, whose output - all tokens being
distinct - is the same string. -/
theorem machine_length_gate (v f p : List Char) :
    machineFrom v f p
        = (if utf8Len (fmtMachine v f p) ≤ 15
            then specDedupJoin (fmtMachine v f p) else fmtMachine v f p)
      ∧ machineFrom "Acme".data "Zeta".data "Z1".data = "Acme Zeta (Z1)".data
      ∧ utf8Len (fmtMachine "Acme".data "Zeta".data "Z1".data) = 14 := by
  refine ⟨?_, by decide, by decide⟩
  by_cases h : utf8Len (fmtMachine v f p) ≤ 15
  · rw [if_pos h]
    unfold machineFrom specDedupJoin
    rw [if_pos (Or.inr h)]
  · rw [if_neg h]
    unfold machineFrom
    rw [if_neg]
    intro hor
    rcases hor with he | hle
    · exact h (by rw [he]; decide)
    · exact h hle

/-- Claim C5 (counterexample): in an environment where the `pm` subprocess
yields invalid UTF-8 stdout, `count_pkgs` panics through `expect` rather
than returning an ordered list - it can fail as a whole. -/
theorem count_pkgs_bad_utf8_panics : count_pkgs badUtf8Env = .panics := rfl

/-- Claim C5 (amended): provided the native `pm` subprocess spawns and
yields valid UTF-8 stdout, `count_pkgs` returns an ordered list in which
each manager contributes at most one (kind, count) entry in the fixed order
native (Android), dpkg, cargo - detection failures silently omitting that
manager's entry - and with native output of 42 lines, no `PREFIX` variable
set and no cargo executable present it returns exactly
`[(Android, 42)]`. -/
theorem count_pkgs_shape (env : PkgEnv) (s : List Char)
    (h : env.pmOutput = some (some s)) :
    (∃ l, count_pkgs env = .ok l
        ∧ (l.map Prod.fst).Sublist
            [PackageManager.Android, PackageManager.Dpkg,
              PackageManager.Cargo])
      ∧ count_pkgs pm42Env = .ok [(PackageManager.Android, 42)] := by
  constructor
  · have hpm : count_pm env = .ok (countLines s) := by
      unfold count_pm
      rw [h]
    refine ⟨pmEntry (countLines s) ++ dpkgEntry env ++ cargoEntry env, ?_, ?_⟩
    · unfold count_pkgs
      rw [hpm]
    · have h1 : (pmEntry (countLines s)).map Prod.fst = []
          ∨ (pmEntry (countLines s)).map Prod.fst = [PackageManager.Android] := by
        cases countLines s with
        | none => exact Or.inl rfl
        | some c => exact Or.inr rfl
      have h2 : (dpkgEntry env).map Prod.fst = []
          ∨ (dpkgEntry env).map Prod.fst = [PackageManager.Dpkg] := by
        unfold dpkgEntry
        cases hd : env.dpkgOnPath with
        | false => exact Or.inl rfl
        | true =>
          cases hc : count_dpkg env with
          | none => simp
          | some c => simp
      have h3 : (cargoEntry env).map Prod.fst = []
          ∨ (cargoEntry env).map Prod.fst = [PackageManager.Cargo] := by
        unfold cargoEntry
        cases hd : env.cargoOnPath with
        | false => exact Or.inl rfl
        | true =>
          cases hc : env.cargoCount with
          | none => simp
          | some c => simp
      rw [List.map_append, List.map_append]
      rcases h1 with h1 | h1 <;> rcases h2 with h2 | h2 <;>
        rcases h3 with h3 | h3 <;> rw [h1, h2, h3] <;> decide
  · rfl

/-- Concrete instance of `count_pkgs_shape` at the claim's environment. -/
theorem count_pkgs_shape_witness :
    count_pkgs pm42Env = .ok [(PackageManager.Android, 42)] :=
  (count_pkgs_shape pm42Env pm42Out rfl).2

/-- Claim C10: with `PREFIX` set and dpkg on the path, an empty dpkg info
directory makes `count_dpkg` return `none` - so no (Dpkg, count) entry
reaches the `count_pkgs` list - while a non-empty directory yields
`some n` with `n` the number of entries whose extension is "list"; the
environment `dpkgZeroEnv` (non-empty directory, no ".list" file) shows
`(Dpkg, 0)` appearing in the list. -/
theorem count_dpkg_spec :
    (∀ (env : PkgEnv) (pfx : List Char), env.pfxVar = some pfx →
        env.dpkgDirEntries = [] →
        count_dpkg env = none
          ∧ ∀ (s : List Char) (l : List (PackageManager × Nat)) (n : Nat),
              env.pmOutput = some (some s) → count_pkgs env = .ok l →
              (PackageManager.Dpkg, n) ∉ l)
      ∧ (∀ (env : PkgEnv) (pfx : List Char), env.pfxVar = some pfx →
          env.dpkgDirEntries ≠ [] →
          count_dpkg env = some ((env.dpkgDirEntries.filter
            (fun x => decide (pathExtension x = some "list".data))).length))
      ∧ count_pkgs dpkgZeroEnv
          = .ok [(PackageManager.Android, 1), (PackageManager.Dpkg, 0)] := by
  refine ⟨fun env pfx hpfx he => ?_, fun env pfx hpfx hne => ?_, rfl⟩
  · have hnone : count_dpkg env = none := by
      unfold count_dpkg
      rw [hpfx]
      simp [he]
    refine ⟨hnone, fun s l n hs hl => ?_⟩
    have hpm : count_pm env = .ok (countLines s) := by
      unfold count_pm
      rw [hs]
    unfold count_pkgs at hl
    rw [hpm] at hl
    have hleq : pmEntry (countLines s) ++ dpkgEntry env ++ cargoEntry env
        = l := by
      injection hl
    subst hleq
    have hde : dpkgEntry env = [] := by
      unfold dpkgEntry
      cases hdp : env.dpkgOnPath <;> simp [hnone]
    rw [hde]
    intro hmem
    cases hcl : countLines s <;> cases hco : env.cargoOnPath <;>
      cases hcc : env.cargoCount <;>
      simp [pmEntry, cargoEntry, hcl, hco, hcc] at hmem
  · unfold count_dpkg
    rw [hpfx]
    simp [hne]

/-- Concrete instances of `count_dpkg_spec`: empty directory (no entry),
its consequence on the `count_pkgs` list, and the mixed directory with two
".list" files. -/
theorem count_dpkg_spec_witness :
    count_dpkg emptyDirEnv = none
      ∧ ((PackageManager.Dpkg, 0) ∉
          ([(PackageManager.Android, 1)] : List (PackageManager × Nat)))
      ∧ count_dpkg dpkgTwoEnv = some 2 :=
  ⟨(count_dpkg_spec.1 emptyDirEnv "/usr".data rfl rfl).1,
    (count_dpkg_spec.1 emptyDirEnv "/usr".data rfl rfl).2 "pkg:one".data
      [(PackageManager.Android, 1)] 0 rfl rfl,
    count_dpkg_spec.2.1 dpkgTwoEnv "/usr".data rfl (by decide)⟩

/-- A line starting with "model name" starts with 'm'. -/
theorem mn_head_m (c : Char) (cs : List Char)
    (h : isPfxOf mnKey (c :: cs) = true) : c = 'm' := by
  have h' : ('m' == c && isPfxOf "odel name".data cs) = true := h
  rw [Bool.and_eq_true] at h'
  exact (eq_of_beq h'.1).symm

/-- A "model name" line is not a "Processor" line. -/
theorem proc_false_of_mn (l : List Char) (h : isPfxOf mnKey l = true) :
    isPfxOf procKey l = false := by
  cases l with
  | nil => exact absurd h (by decide)
  | cons c cs =>
    have hc : c = 'm' := mn_head_m c cs h
    subst hc
    rfl

/-- Unfolding of `cpu_model_name` on an open file. -/
theorem cpu_model_name_eval (lines : List (List Char)) :
    cpu_model_name (some lines)
      = (match scanCpu lines none none with
          | (some h, _, _) => Except.ok h
          | (none, some m, _) => Except.ok m
          | (none, none, some p) => Except.ok p
          | (none, none, none) =>
              Except.error (ReadoutError.Other notFoundMsg)) := rfl

/-- On Hardware-free lines the scan never sets the hardware slot. -/
theorem scan_fst_none (lines : List (List Char)) :
    ∀ (m p : Option (List Char)),
      (∀ x ∈ lines, isPfxOf hwKey x = false) →
      (scanCpu lines m p).1 = none := by
  induction lines with
  | nil => intro m p _; rfl
  | cons l rest ih =>
    intro m p h
    have hl : isPfxOf hwKey l = false := h l (by simp)
    have ht : ∀ x ∈ rest, isPfxOf hwKey x = false :=
      fun x hx => h x (by simp [hx])
    simp only [scanCpu]
    rw [if_neg (by simp [hl])]
    split
    · exact ih _ _ ht
    · split
      · exact ih _ _ ht
      · exact ih _ _ ht

/-- On Hardware-free and model-name-free lines the scan leaves the model
slot unchanged (and never sets the hardware slot). -/
theorem scan_model_const (lines : List (List Char)) :
    ∀ (m p : Option (List Char)),
      (∀ x ∈ lines, isPfxOf hwKey x = false) →
      (∀ x ∈ lines, isPfxOf mnKey x = false) →
      (scanCpu lines m p).1 = none ∧ (scanCpu lines m p).2.1 = m := by
  induction lines with
  | nil => intro m p _ _; exact ⟨rfl, rfl⟩
  | cons l rest ih =>
    intro m p h1 h2
    have hl1 : isPfxOf hwKey l = false := h1 l (by simp)
    have hl2 : isPfxOf mnKey l = false := h2 l (by simp)
    have ht1 : ∀ x ∈ rest, isPfxOf hwKey x = false :=
      fun x hx => h1 x (by simp [hx])
    have ht2 : ∀ x ∈ rest, isPfxOf mnKey x = false :=
      fun x hx => h2 x (by simp [hx])
    simp only [scanCpu]
    rw [if_neg (by simp [hl1])]
    split
    · exact ih _ _ ht1 ht2
    · rw [if_neg (by simp [hl2])]
      exact ih _ _ ht1 ht2

/-- On Hardware-free lines a model value, once captured, persists to the
end of the scan. -/
theorem scan_model_persist (lines : List (List Char)) :
    ∀ (v : List Char) (p : Option (List Char)),
      (∀ x ∈ lines, isPfxOf hwKey x = false) →
      (scanCpu lines (some v) p).1 = none
        ∧ (scanCpu lines (some v) p).2.1 = some v := by
  induction lines with
  | nil => intro v p _; exact ⟨rfl, rfl⟩
  | cons l rest ih =>
    intro v p h
    have hl : isPfxOf hwKey l = false := h l (by simp)
    have ht : ∀ x ∈ rest, isPfxOf hwKey x = false :=
      fun x hx => h x (by simp [hx])
    simp only [scanCpu]
    rw [if_neg (by simp [hl])]
    split
    · exact ih _ _ ht
    · rw [if_neg (by simp)]
      exact ih _ _ ht

/-- Scanning past a Hardware-free block reaches the remaining lines with
some intermediate state. -/
theorem scan_append_skip (pre : List (List Char)) :
    ∀ (rest : List (List Char)) (m p : Option (List Char)),
      (∀ x ∈ pre, isPfxOf hwKey x = false) →
      ∃ m' p', scanCpu (pre ++ rest) m p = scanCpu rest m' p' := by
  induction pre with
  | nil => intro rest m p _; exact ⟨m, p, rfl⟩
  | cons l pre' ih =>
    intro rest m p h
    have hl : isPfxOf hwKey l = false := h l (by simp)
    have ht : ∀ x ∈ pre', isPfxOf hwKey x = false :=
      fun x hx => h x (by simp [hx])
    rw [List.cons_append]
    simp only [scanCpu]
    rw [if_neg (by simp [hl])]
    split
    · exact ih rest _ _ ht
    · split
      · exact ih rest _ _ ht
      · exact ih rest _ _ ht

/-- Scanning past a Hardware-free, model-name-free block keeps the model
state unchanged. -/
theorem scan_append_keep (pre : List (List Char)) :
    ∀ (rest : List (List Char)) (m p : Option (List Char)),
      (∀ x ∈ pre, isPfxOf hwKey x = false) →
      (∀ x ∈ pre, isPfxOf mnKey x = false) →
      ∃ p', scanCpu (pre ++ rest) m p = scanCpu rest m p' := by
  induction pre with
  | nil => intro rest m p _ _; exact ⟨p, rfl⟩
  | cons l pre' ih =>
    intro rest m p h1 h2
    have hl1 : isPfxOf hwKey l = false := h1 l (by simp)
    have hl2 : isPfxOf mnKey l = false := h2 l (by simp)
    have ht1 : ∀ x ∈ pre', isPfxOf hwKey x = false :=
      fun x hx => h1 x (by simp [hx])
    have ht2 : ∀ x ∈ pre', isPfxOf mnKey x = false :=
      fun x hx => h2 x (by simp [hx])
    rw [List.cons_append]
    simp only [scanCpu]
    rw [if_neg (by simp [hl1])]
    split
    · exact ih rest _ _ ht1 ht2
    · rw [if_neg (by simp [hl2])]
      exact ih rest _ _ ht1 ht2

/-- On Hardware-free, model-name-free lines the processor slot either
stays untouched (no Processor line) or holds the extract of some Processor
line. -/
theorem scan_proc (lines : List (List Char)) :
    ∀ (m p : Option (List Char)),
      (∀ x ∈ lines, isPfxOf hwKey x = false) →
      (∀ x ∈ lines, isPfxOf mnKey x = false) →
      ((scanCpu lines m p).2.2 = p ∧ ∀ x ∈ lines, isPfxOf procKey x = false)
        ∨ (∃ x, x ∈ lines ∧ isPfxOf procKey x = true
            ∧ (scanCpu lines m p).2.2 = some (extractVal procKey x)) := by
  induction lines with
  | nil => intro m p _ _; exact Or.inl ⟨rfl, by simp⟩
  | cons l rest ih =>
    intro m p h1 h2
    have hl1 : isPfxOf hwKey l = false := h1 l (by simp)
    have hl2 : isPfxOf mnKey l = false := h2 l (by simp)
    have ht1 : ∀ x ∈ rest, isPfxOf hwKey x = false :=
      fun x hx => h1 x (by simp [hx])
    have ht2 : ∀ x ∈ rest, isPfxOf mnKey x = false :=
      fun x hx => h2 x (by simp [hx])
    simp only [scanCpu]
    rw [if_neg (by simp [hl1])]
    by_cases hp : isPfxOf procKey l = true
    · rw [if_pos hp]
      rcases ih m (some (extractVal procKey l)) ht1 ht2 with
        ⟨heq, _⟩ | ⟨x, hx, hpx, heq⟩
      · exact Or.inr ⟨l, by simp, hp, heq⟩
      · exact Or.inr ⟨x, by simp [hx], hpx, heq⟩
    · rw [if_neg hp, if_neg (by simp [hl2])]
      have hlp : isPfxOf procKey l = false := by
        revert hp
        cases isPfxOf procKey l <;> simp
      rcases ih m p ht1 ht2 with ⟨heq, hnone⟩ | ⟨x, hx, hpx, heq⟩
      · refine Or.inl ⟨heq, fun x hx => ?_⟩
        rcases List.mem_cons.mp hx with rfl | hx'
        · exact hlp
        · exact hnone x hx'
      · exact Or.inr ⟨x, by simp [hx], hpx, heq⟩

/-- Claim C6: `cpu_model_name` scans line by line and stops at the first
line starting with "Hardware", returning that line's value regardless of
anything captured earlier or appearing later (part 1); with no Hardware
line, a "model name" line wins over any "Processor" line - the first
model-name line's value is returned (part 2) - and with neither, the value
of some Processor line is returned (part 3); with none of the three keys
present the not-found `Other` error is returned (part 4); in particular
for a table where "Hardware : Qualcomm" precedes "model name : X" the
result is "Qualcomm" (part 5). -/
theorem cpu_model_name_spec :
    (∀ (pre : List (List Char)) (l : List Char) (suf : List (List Char)),
        (∀ x ∈ pre, isPfxOf hwKey x = false) → isPfxOf hwKey l = true →
        cpu_model_name (some (pre ++ l :: suf)) = .ok (extractVal hwKey l))
      ∧ (∀ (pre : List (List Char)) (l : List Char) (suf : List (List Char)),
          (∀ x ∈ pre ++ l :: suf, isPfxOf hwKey x = false) →
          (∀ x ∈ pre, isPfxOf mnKey x = false) → isPfxOf mnKey l = true →
          cpu_model_name (some (pre ++ l :: suf)) = .ok (extractVal mnKey l))
      ∧ (∀ lines : List (List Char),
          (∀ x ∈ lines, isPfxOf hwKey x = false) →
          (∀ x ∈ lines, isPfxOf mnKey x = false) →
          (∃ x, x ∈ lines ∧ isPfxOf procKey x = true) →
          ∃ x, x ∈ lines ∧ isPfxOf procKey x = true
            ∧ cpu_model_name (some lines) = .ok (extractVal procKey x))
      ∧ (∀ lines : List (List Char),
          (∀ x ∈ lines, isPfxOf hwKey x = false ∧ isPfxOf mnKey x = false
            ∧ isPfxOf procKey x = false) →
          cpu_model_name (some lines)
            = .error (ReadoutError.Other notFoundMsg))
      ∧ cpu_model_name (some ["Hardware : Qualcomm".data,
          "model name : X".data]) = .ok "Qualcomm".data := by
  refine ⟨?_, ?_, ?_, ?_, rfl⟩
  · intro pre l suf hpre hl
    obtain ⟨m', p', heq⟩ := scan_append_skip pre (l :: suf) none none hpre
    have hstep : scanCpu (l :: suf) m' p'
        = (some (extractVal hwKey l), m', p') := by
      simp only [scanCpu]
      rw [if_pos hl]
    rw [cpu_model_name_eval, heq, hstep]
  · intro pre l suf hall hpre hl
    have hpre_hw : ∀ x ∈ pre, isPfxOf hwKey x = false :=
      fun x hx => hall x (by simp [hx])
    obtain ⟨p', heq⟩ := scan_append_keep pre (l :: suf) none none hpre_hw hpre
    have hlhw : isPfxOf hwKey l = false := hall l (by simp)
    have hlproc : isPfxOf procKey l = false := proc_false_of_mn l hl
    have hsuf_hw : ∀ x ∈ suf, isPfxOf hwKey x = false :=
      fun x hx => hall x (by simp [hx])
    have hstep : scanCpu (l :: suf) none p'
        = scanCpu suf (some (extractVal mnKey l)) p' := by
      simp only [scanCpu]
      rw [if_neg (by simp [hlhw]), if_neg (by simp [hlproc]),
        if_pos (by exact ⟨hl, trivial⟩)]
    obtain ⟨hfst, hsnd⟩ :=
      scan_model_persist suf (extractVal mnKey l) p' hsuf_hw
    rw [cpu_model_name_eval, heq, hstep]
    rcases hsc : scanCpu suf (some (extractVal mnKey l)) p' with ⟨a, b, c⟩
    rw [hsc] at hfst hsnd
    have ha : a = none := hfst
    have hb : b = some (extractVal mnKey l) := hsnd
    subst ha
    subst hb
    rfl
  · intro lines h1 h2 hex
    rcases scan_proc lines none none h1 h2 with
      ⟨_, hnone⟩ | ⟨x, hx, hpx, heq⟩
    · exfalso
      obtain ⟨x, hx, hpx⟩ := hex
      rw [hnone x hx] at hpx
      exact absurd hpx (by decide)
    · refine ⟨x, hx, hpx, ?_⟩
      obtain ⟨hfst, hm⟩ := scan_model_const lines none none h1 h2
      rw [cpu_model_name_eval]
      rcases hsc : scanCpu lines none none with ⟨a, b, c⟩
      rw [hsc] at hfst hm heq
      have ha : a = none := hfst
      have hb : b = none := hm
      have hc : c = some (extractVal procKey x) := heq
      subst ha
      subst hb
      subst hc
      rfl
  · intro lines hall
    have h1 : ∀ x ∈ lines, isPfxOf hwKey x = false :=
      fun x hx => (hall x hx).1
    have h2 : ∀ x ∈ lines, isPfxOf mnKey x = false :=
      fun x hx => (hall x hx).2.1
    obtain ⟨hfst, hm⟩ := scan_model_const lines none none h1 h2
    rcases scan_proc lines none none h1 h2 with
      ⟨heq, _⟩ | ⟨x, hx, hpx, _⟩
    · rw [cpu_model_name_eval]
      rcases hsc : scanCpu lines none none with ⟨a, b, c⟩
      rw [hsc] at hfst hm heq
      have ha : a = none := hfst
      have hb : b = none := hm
      have hc : c = none := heq
      subst ha
      subst hb
      subst hc
      rfl
    · rw [(hall x hx).2.2] at hpx
      exact absurd hpx (by decide)

/-- Concrete instances of the four general parts of
`cpu_model_name_spec`. -/
theorem cpu_model_name_spec_witness :
    cpu_model_name (some ["Hardware : A".data]) = .ok "A".data
      ∧ cpu_model_name (some ["model name : Foo Bar".data])
          = .ok "Foo Bar".data
      ∧ (∃ x, x ∈ ["Processor : AArch64".data] ∧ isPfxOf procKey x = true
          ∧ cpu_model_name (some ["Processor : AArch64".data])
              = .ok (extractVal procKey x))
      ∧ cpu_model_name (some ["flags : fp asimd".data])
          = .error (ReadoutError.Other notFoundMsg) :=
  ⟨cpu_model_name_spec.1 [] "Hardware : A".data [] (by simp) (by decide),
    cpu_model_name_spec.2.1 [] "model name : Foo Bar".data [] (by decide)
      (by simp) (by decide),
    cpu_model_name_spec.2.2.1 ["Processor : AArch64".data] (by decide)
      (by decide) ⟨"Processor : AArch64".data, by simp, by decide⟩,
    cpu_model_name_spec.2.2.2.1 ["flags : fp asimd".data] (by decide)⟩

/-- Value of the fuel-indexed decimal digits. -/
theorem decDigitsLE_val (fuel : Nat) :
    ∀ n : Nat, n < fuel → ofDigitsLE (decDigitsLE fuel n) = n := by
  induction fuel with
  | zero => intro n h; omega
  | succ fuel ih =>
    intro n h
    by_cases hn : n = 0
    · subst hn; simp [decDigitsLE, ofDigitsLE]
    · have hlt : n / 10 < fuel := by omega
      simp only [decDigitsLE]
      rw [if_neg hn]
      simp only [ofDigitsLE]
      rw [ih (n / 10) hlt]
      omega

/-- Decimal digits are below 10. -/
theorem decDigitsLE_lt (fuel : Nat) :
    ∀ (n d : Nat), d ∈ decDigitsLE fuel n → d < 10 := by
  induction fuel with
  | zero => intro n d h; simp [decDigitsLE] at h
  | succ fuel ih =>
    intro n d h
    by_cases hn : n = 0
    · subst hn; simp [decDigitsLE] at h
    · simp only [decDigitsLE] at h
      rw [if_neg hn] at h
      rcases List.mem_cons.mp h with rfl | h'
      · omega
      · exact ih _ _ h'

/-- A nonzero number has at least one digit. -/
theorem decDigitsLE_ne_nil (fuel n : Nat) (hf : fuel ≠ 0) (hn : n ≠ 0) :
    decDigitsLE fuel n ≠ [] := by
  cases fuel with
  | zero => exact absurd rfl hf
  | succ fuel => simp [decDigitsLE, hn]

/-- The unchecked digit loop over an appended list. -/
theorem plainValGo_append (xs : List Char) :
    ∀ (ys : List Char) (acc : Nat),
      plainValGo acc (xs ++ ys)
        = (match plainValGo acc xs with
           | some a => plainValGo a ys
           | none => none) := by
  induction xs with
  | nil => intro ys acc; rfl
  | cons c cs ih =>
    intro ys acc
    rcases hd : digitVal? c with _ | d <;>
      simp only [List.cons_append, plainValGo, hd]
    exact ih ys (acc * 10 + d)

/-- Digit characters decode back to their digit. -/
theorem digitVal?_digitChar (d : Nat) (h : d < 10) :
    digitVal? (digitChar d) = some d := by
  interval_cases d <;> decide

/-- Digit characters are not the plus sign. -/
theorem digitChar_ne_plus (d : Nat) (h : d < 10) : digitChar d ≠ '+' := by
  interval_cases d <;> decide

/-- The unchecked digit loop over reversed (big-endian) digit characters
computes the positional value. -/
theorem plainValGo_rev_digits (ds : List Nat) :
    ∀ acc : Nat, (∀ d ∈ ds, d < 10) →
      plainValGo acc (ds.reverse.map digitChar)
        = some (acc * 10 ^ ds.length + ofDigitsLE ds) := by
  induction ds with
  | nil => intro acc _; simp [plainValGo, ofDigitsLE]
  | cons d rest ih =>
    intro acc h
    have hd : d < 10 := h d (by simp)
    have ht : ∀ x ∈ rest, x < 10 := fun x hx => h x (by simp [hx])
    rw [List.reverse_cons, List.map_append, plainValGo_append, ih acc ht]
    simp only [List.map_cons, List.map_nil, plainValGo,
      digitVal?_digitChar d hd, List.length_cons, ofDigitsLE]
    congr 1
    rw [pow_succ]
    ring

/-- The canonical decimal representation denotes its number. -/
theorem denotesVal_decimalRepr (n : Nat) :
    denotesVal (decimalRepr n) = some n := by
  by_cases hn : n = 0
  · subst hn; decide
  · unfold decimalRepr
    rw [if_neg hn]
    have hne : decDigitsLE (n + 1) n ≠ [] :=
      decDigitsLE_ne_nil _ _ (by omega) hn
    have hlt : ∀ d ∈ decDigitsLE (n + 1) n, d < 10 :=
      fun d hd => decDigitsLE_lt _ _ _ hd
    have hval := plainValGo_rev_digits (decDigitsLE (n + 1) n) 0 hlt
    rw [decDigitsLE_val (n + 1) n (by omega)] at hval
    rw [Nat.zero_mul, Nat.zero_add] at hval
    rcases hs : (decDigitsLE (n + 1) n).reverse.map digitChar with _ | ⟨c, cs⟩
    · rw [List.map_eq_nil_iff, List.reverse_eq_nil_iff] at hs
      exact absurd hs hne
    · have hc : c ∈ (decDigitsLE (n + 1) n).reverse.map digitChar := by
        rw [hs]; simp
      obtain ⟨d, hdmem, hdc⟩ := List.mem_map.mp hc
      have hd10 : d < 10 :=
        decDigitsLE_lt _ _ _ (List.mem_reverse.mp hdmem)
      have hcplus : c ≠ '+' := by
        rw [← hdc]
        exact digitChar_ne_plus d hd10
      rw [hs] at hval
      simp only [denotesVal]
      rw [if_neg hcplus]
      exact hval

/-- The unchecked digit loop never shrinks the accumulator. -/
theorem plainValGo_le (l : List Char) :
    ∀ (acc n : Nat), plainValGo acc l = some n → acc ≤ n := by
  induction l with
  | nil =>
    intro acc n h
    have : acc = n := by injection h
    omega
  | cons c cs ih =>
    intro acc n h
    rcases hd : digitVal? c with _ | d
    · simp only [plainValGo, hd] at h
      exact absurd h (by simp)
    · simp only [plainValGo, hd] at h
      have := ih _ _ h
      omega

/-- The checked u8 digit loop agrees with the unchecked loop bounded by
255. -/
theorem parseU8Go_ok_iff (l : List Char) :
    ∀ (acc n : Nat), acc ≤ 255 →
      (parseU8Go acc l = .ok n ↔ plainValGo acc l = some n ∧ n ≤ 255) := by
  induction l with
  | nil =>
    intro acc n hacc
    constructor
    · intro h
      have : acc = n := by injection h
      subst this
      exact ⟨rfl, hacc⟩
    · rintro ⟨h, _⟩
      have : acc = n := by injection h
      subst this
      rfl
  | cons c cs ih =>
    intro acc n hacc
    rcases hd : digitVal? c with _ | d
    · simp only [parseU8Go, plainValGo, hd]
      simp
    · by_cases hlt : 255 < acc * 10 + d
      · simp only [parseU8Go, plainValGo, hd]
        rw [if_pos hlt]
        constructor
        · intro h
          exact absurd h (by simp)
        · rintro ⟨h, hn⟩
          have := plainValGo_le cs _ _ h
          omega
      · simp only [parseU8Go, plainValGo, hd]
        rw [if_neg hlt]
        exact ih _ _ (by omega)

/-- `u8::from_str` succeeds exactly on strings denoting a number of at
most 255, returning that number. -/
theorem parseU8E_ok_iff (s : List Char) (n : Nat) :
    parseU8E s = .ok n ↔ denotesVal s = some n ∧ n ≤ 255 := by
  cases s with
  | nil => simp [parseU8E, denotesVal]
  | cons c cs =>
    by_cases hc : c = '+'
    · subst hc
      by_cases hcs : cs = []
      · subst hcs
        simp [parseU8E, denotesVal]
      · have h1 : parseU8E ('+' :: cs) = parseU8Go 0 cs := by
          simp [parseU8E, hcs]
        have h2 : denotesVal ('+' :: cs) = plainValGo 0 cs := by
          simp [denotesVal, hcs]
        rw [h1, h2]
        exact parseU8Go_ok_iff cs 0 n (by omega)
    · have h1 : parseU8E (c :: cs) = parseU8Go 0 (c :: cs) := by
        simp [parseU8E, hc]
      have h2 : denotesVal (c :: cs) = plainValGo 0 (c :: cs) := by
        simp [denotesVal, hc]
      rw [h1, h2]
      exact parseU8Go_ok_iff (c :: cs) 0 n (by omega)

/-- `u8::from_str` fails on every non-numeric string and on every string
denoting a number above 255. -/
theorem parseU8E_error_of (s : List Char)
    (h : denotesVal s = none ∨ ∃ m, denotesVal s = some m ∧ 255 < m) :
    ∃ k, parseU8E s = .error k := by
  cases he : parseU8E s with
  | error k => exact ⟨k, rfl⟩
  | ok n =>
    exfalso
    obtain ⟨hd, hn⟩ := (parseU8E_ok_iff s n).mp he
    rcases h with h | ⟨m, hm, hgt⟩
    · rw [h] at hd
      exact absurd hd (by simp)
    · rw [hm] at hd
      have : m = n := by injection hd
      omega

/-- Unfolding of `percentage` on a successful read. -/
theorem percentage_eval (content : List Char) :
    percentage (.ok content)
      = (match parseU8E (popNewline content) with
         | .ok p => Except.ok p
         | .error k =>
             Except.error (ReadoutError.Other
               (parseErrMsg (popNewline content) k))) := rfl

/-- Claim C8: whenever the battery-capacity file content is, after the
trailing newline is trimmed, the canonical decimal string of some
`n ≤ 100` (so "0".."100" with no trailing content), `percentage` returns
`Ok n`; whenever the trimmed content is non-numeric or denotes a value
above 255, `percentage` returns the parse-failure `Other` error whose
message carries the raw trimmed text and the source path. -/
theorem percentage_spec :
    (∀ (n : Nat) (content : List Char), n ≤ 100 →
        popNewline content = decimalRepr n →
        percentage (.ok content) = .ok n)
      ∧ (∀ content : List Char,
          (denotesVal (popNewline content) = none
            ∨ ∃ m, denotesVal (popNewline content) = some m ∧ 255 < m) →
          ∃ k, percentage (.ok content)
              = .error (ReadoutError.Other
                  (parseErrMsg (popNewline content) k))
            ∧ ∃ u v w, parseErrMsg (popNewline content) k
                = u ++ popNewline content ++ v ++ batCapacityPath ++ w) := by
  constructor
  · intro n content hn hpop
    have hparse : parseU8E (popNewline content) = .ok n := by
      rw [hpop]
      exact (parseU8E_ok_iff _ n).mpr ⟨denotesVal_decimalRepr n, by omega⟩
    rw [percentage_eval, hparse]
  · intro content h
    obtain ⟨k, hk⟩ := parseU8E_error_of _ h
    refine ⟨k, ?_, "Could not parse the value '".data, "' of ".data,
      " into a digit: ".data ++ kindRepr k, ?_⟩
    · rw [percentage_eval, hk]
    · simp [parseErrMsg, List.append_assoc]

/-- Concrete instances of `percentage_spec`: the content "100" with a
trailing newline parses to 100, and the content "abc" produces the
message-carrying error. -/
theorem percentage_spec_witness :
    percentage (.ok "100\n".data) = .ok 100
      ∧ ∃ k, percentage (.ok "abc".data)
          = .error (ReadoutError.Other (parseErrMsg (popNewline "abc".data) k))
        ∧ ∃ u v w, parseErrMsg (popNewline "abc".data) k
            = u ++ popNewline "abc".data ++ v ++ batCapacityPath ++ w :=
  ⟨percentage_spec.1 100 "100\n".data (by decide) (by decide),
    percentage_spec.2 "abc".data (Or.inl (by decide))⟩
